import Mathlib

/-!
Verification development for the Markyfy markdown-to-HTML converter.

The TypeScript sources (`Markyfy` parser class and `SyntaxHighlighter`) are
shallowly embedded below.  JavaScript strings are modelled as Lean `String`
(a wrapper around `List Char`), and the handful of JavaScript string/regex
operations the code uses (`trim`, `split("\n")`, `startsWith`, `indexOf`,
`slice`, and the specific regexes of the parser) are modelled as executable
functions on `List Char`.  Loops that walk an index forward are modelled as
structural recursions on the remaining suffix, with an explicit fuel
parameter where the original code can re-enter itself (the block tokenizer
recursing into blockquote bodies); fuel is threaded so that every theorem
about a single loop step is fuel-generic.
-/

namespace Markyfy

/-- Whitespace characters matched by JavaScript `\s` / `String.prototype.trim`
(restricted to the code points that can realistically occur in markdown input). -/
def isJsWs : Char → Bool
  | ' ' | '\t' | '\n' | '\r' | '\x0b' | '\x0c' | '\u00A0' | '\uFEFF' => true
  | _ => false

/-- Model of JavaScript `String.prototype.trim` on the character list. -/
def trimChars (l : List Char) : List Char :=
  ((l.dropWhile isJsWs).reverse.dropWhile isJsWs).reverse

/-- Model of JavaScript `String.prototype.trim`. -/
def jsTrim (s : String) : String :=
  ⟨trimChars s.data⟩

/-- Model of JavaScript `split("\n")`: always returns at least one piece. -/
def splitNl : List Char → List (List Char)
  | [] => [[]]
  | c :: cs =>
    let r := splitNl cs
    if c = '\n' then [] :: r
    else
      match r with
      | [] => [[c]]
      | h :: t => (c :: h) :: t

/-- Split a string into its lines, as `markdown.split("\n")` does. -/
def splitLines (s : String) : List String :=
  (splitNl s.data).map (fun l => ⟨l⟩)

/-- Does `pat` occur as a prefix of `l`?  Models `String.prototype.startsWith`. -/
def hasPrefixChars : List Char → List Char → Bool
  | [], _ => true
  | _ :: _, [] => false
  | p :: ps, c :: cs => p = c && hasPrefixChars ps cs

/-- Model of JavaScript `s.startsWith(pre)`. -/
def sStartsWith (s pre : String) : Bool :=
  hasPrefixChars pre.data s.data

/-- Count the characters of the leading run satisfying `p`
(the length of the match of a regex such as `^(\s*)`). -/
def countLeading (p : Char → Bool) : List Char → Nat
  | [] => 0
  | c :: cs => if p c then countLeading p cs + 1 else 0

/-- First index of character `c` in `l`; models `indexOf` for a one-character
needle (searching from the start of the given suffix). -/
def findChar (c : Char) : List Char → Option Nat
  | [] => none
  | x :: rest => if x = c then some 0 else (findChar c rest).map (· + 1)

/-- First index where the two-character pattern `a b` occurs in `l`; models
`indexOf` for a two-character needle. -/
def findMark (a b : Char) : List Char → Option Nat
  | [] => none
  | [_] => none
  | x :: y :: rest =>
    if x = a ∧ y = b then some 0 else (findMark a b (y :: rest)).map (· + 1)

/-- Replace every occurrence of the character `c` by the string `rep`; models
one `text.replace(/c/g, rep)` pass of `escapeHtml`. -/
def replAll (c : Char) (rep : List Char) : List Char → List Char
  | [] => []
  | x :: xs => if x = c then rep ++ replAll c rep xs else x :: replAll c rep xs

/-- Markyfy.escapeHtml: the five sequential global replaces
`& → &amp;`, `< → &lt;`, `> → &gt;`, `" → &quot;`, `' → &#039;`. -/
def escapeHtml (s : String) : String :=
  ⟨replAll '\'' "&#039;".data
    (replAll '"' "&quot;".data
      (replAll '>' "&gt;".data
        (replAll '<' "&lt;".data
          (replAll '&' "&amp;".data s.data))))⟩

/-- Token kinds of the markdown token model (src/token.ts `TokenType`). -/
inductive TokenType where
  | paragraph
  | header
  | code_block
  | code
  | bold
  | italic
  | link
  | list
  | list_item
  | blockquote
  | text
deriving DecidableEq, Repr

/-- Token node (src/token.ts `Token`): one tagged node with the optional
fields of the TypeScript interface.  Field order:
type, raw, text, depth, lang, url, ordered, items, children. -/
inductive Token where
  | mk
    (type : TokenType)
    (raw : String)
    (text : Option String)
    (depth : Option Nat)
    (lang : Option String)
    (url : Option String)
    (ordered : Option Bool)
    (items : Option (List Token))
    (children : Option (List Token))

/-- Projection for the `type` field. -/
def Token.type : Token → TokenType
  | .mk t _ _ _ _ _ _ _ _ => t

/-- Projection for the `raw` field. -/
def Token.raw : Token → String
  | .mk _ r _ _ _ _ _ _ _ => r

/-- Projection for the `text` field. -/
def Token.text : Token → Option String
  | .mk _ _ t _ _ _ _ _ _ => t

/-- Projection for the `depth` field. -/
def Token.depth : Token → Option Nat
  | .mk _ _ _ d _ _ _ _ _ => d

/-- Projection for the `lang` field. -/
def Token.lang : Token → Option String
  | .mk _ _ _ _ l _ _ _ _ => l

/-- Projection for the `url` field. -/
def Token.url : Token → Option String
  | .mk _ _ _ _ _ u _ _ _ => u

/-- Projection for the `ordered` field. -/
def Token.ordered : Token → Option Bool
  | .mk _ _ _ _ _ _ o _ _ => o

/-- Projection for the `items` field. -/
def Token.items : Token → Option (List Token)
  | .mk _ _ _ _ _ _ _ i _ => i

/-- Projection for the `children` field. -/
def Token.children : Token → Option (List Token)
  | .mk _ _ _ _ _ _ _ _ c => c

/-- Functional update of the `text` field (models `lastItem.text += ...`). -/
def Token.withText : Token → Option String → Token
  | .mk ty r _ d lg u o i c, t => .mk ty r t d lg u o i c

/-- Functional update of the `items` field (models `lastItem.items = newList`). -/
def Token.withItems : Token → Option (List Token) → Token
  | .mk ty r t d lg u o _ c, i => .mk ty r t d lg u o i c

/-- Functional update of the `children` field (models `children.push(...)`). -/
def Token.withChildren : Token → Option (List Token) → Token
  | .mk ty r t d lg u o i _, c => .mk ty r t d lg u o i c

/-- Plain-text token `{ type: "text", raw: s, text: s }`. -/
def textTok (s : String) : Token :=
  .mk .text s (some s) none none none none none none

/-- Flush of the pending plain-text accumulator: `if (current) tokens.push(...)`. -/
def mkFlush (current : List Char) : List Token :=
  match current with
  | [] => []
  | _ => [textTok ⟨current⟩]

/-- Bold attempt of `parseInline` at the current position: opening marker `**`
or `__`, closing marker the same two characters found later
(`text.indexOf(marker, i + 2)`).  Returns the token and the number of
characters consumed. -/
def tryBold (rest : List Char) : Option (Token × Nat) :=
  match rest with
  | a :: b :: cs =>
    if (a = '*' ∧ b = '*') ∨ (a = '_' ∧ b = '_') then
      match findMark a b cs with
      | some j =>
        some (.mk .bold ⟨rest.take (j + 4)⟩ (some ⟨cs.take j⟩)
                none none none none none none, j + 4)
      | none => none
    else none
  | _ => none

/-- Italic attempt of `parseInline`: single `*` or `_`, closed by the same
character found later (`text.indexOf(text[i], i + 1)`). -/
def tryItalic (rest : List Char) : Option (Token × Nat) :=
  match rest with
  | c :: cs =>
    if c = '*' ∨ c = '_' then
      (findChar c cs).map (fun j =>
        (.mk .italic ⟨rest.take (j + 2)⟩ (some ⟨cs.take j⟩)
            none none none none none none, j + 2))
    else none
  | [] => none

/-- Inline-code attempt of `parseInline`: backtick-delimited. -/
def tryCode (rest : List Char) : Option (Token × Nat) :=
  match rest with
  | c :: cs =>
    if c = '`' then
      (findChar '`' cs).map (fun j =>
        (.mk .code ⟨rest.take (j + 2)⟩ (some ⟨cs.take j⟩)
            none none none none none none, j + 2))
    else none
  | [] => none

/-- Link attempt of `parseInline`: `[` ... `]` immediately followed by
`(` ... `)`.  `titleEnd = text.indexOf("]", i)`, requires
`text[titleEnd + 1] === "("`, `urlEnd = text.indexOf(")", titleEnd + 2)`. -/
def tryLink (rest : List Char) : Option (Token × Nat) :=
  match rest with
  | c :: _ =>
    if c = '[' then
      match findChar ']' rest with
      | some t =>
        match rest.get? (t + 1) with
        | some '(' =>
          match findChar ')' (rest.drop (t + 2)) with
          | some u =>
            some (.mk .link ⟨rest.take (t + u + 3)⟩
                    (some ⟨(rest.drop 1).take (t - 1)⟩)
                    none none (some ⟨(rest.drop (t + 2)).take u⟩)
                    none none none, t + u + 3)
          | none => none
        | _ => none
      | none => none
    else none
  | [] => none

/-- One recognition attempt of `parseInline` at the current position, in the
code's priority order bold, italic, inline code, link; a failed earlier
attempt falls through to the later ones exactly as the `if`/`continue`
cascade does. -/
def inlineStep (rest : List Char) : Option (Token × Nat) :=
  match tryBold rest with
  | some r => some r
  | none =>
    match tryItalic rest with
    | some r => some r
    | none =>
      match tryCode rest with
      | some r => some r
      | none => tryLink rest

/-- Main loop of `Markyfy.parseInline`: left-to-right scan with a pending
plain-text accumulator `current`.  The fuel is the number of remaining loop
iterations; the wrapper supplies the text length, which always suffices
because every iteration consumes at least one character. -/
def parseInlineAux : Nat → List Char → List Char → List Token
  | 0, _, current => mkFlush current
  | _ + 1, [], current => mkFlush current
  | fuel + 1, c :: cs, current =>
    match inlineStep (c :: cs) with
    | some (tok, n) => mkFlush current ++ tok :: parseInlineAux fuel ((c :: cs).drop n) []
    | none => parseInlineAux fuel cs (current ++ [c])

/-- Markyfy.parseInline. -/
def parseInline (s : String) : List Token :=
  parseInlineAux s.data.length s.data []

/-- Paragraph fallback token used by `parseHeader`:
`{ type: "paragraph", raw: line, children: this.parseInline(line) }`. -/
def headerFallback (line : String) : Token :=
  .mk .paragraph line none none none none none none (some (parseInline line))

/-- Markyfy.parseHeader: the semantics of matching the line against
`^(#{1,6})(\s+(.+))?$` and dispatching on the optional group.  The regex
matches exactly when the leading `#`-run has length 1–6 and the remainder is
either empty (group 2 absent, paragraph fallback) or consists of at least one
whitespace character followed by at least one further character; with a
non-whitespace tail character, greedy `\s+` leaves group 3 = the tail after
the maximal whitespace run, and with an all-whitespace remainder of length at
least two, backtracking leaves group 3 = the final whitespace character. -/
def parseHeader (line : String) : Token :=
  let cs := line.data
  let h := countLeading (· = '#') cs
  let tail := cs.drop h
  if 1 ≤ h ∧ h ≤ 6 then
    match tail with
    | [] => headerFallback line
    | t :: _ =>
      if isJsWs t then
        let r := tail.dropWhile isJsWs
        match r with
        | _ :: _ =>
          .mk .header line (some ⟨r⟩) (some h) none none none none
            (some (parseInline ⟨r⟩))
        | [] =>
          match tail with
          | _ :: _ :: _ =>
            match tail.getLast? with
            | some lc =>
              .mk .header line (some ⟨[lc]⟩) (some h) none none none none
                (some (parseInline ⟨[lc]⟩))
            | none => headerFallback line
          | _ => headerFallback line
      else headerFallback line
  else headerFallback line

/-- Join a list of lines with newlines, as `array.join("\n")` does. -/
def joinNl (ls : List String) : String :=
  String.intercalate "\n" ls

/-- Scanning loop of `parseCodeBlock` over the lines after the opening fence:
collects raw lines until one starting with a triple backtick; `none` when
end-of-input is reached first (`i >= lines.length`, the throw site). -/
def cbLoop : List String → Option (List String)
  | [] => none
  | l :: rest =>
    if sStartsWith l "```" then some []
    else (cbLoop rest).map (l :: ·)

/-- Markyfy.parseCodeBlock on the suffix of lines starting at the opening
fence.  Returns the token and the number of consumed lines
(`newIndex - startIndex + 1`), or the `"Unclosed code block"` error. -/
def parseCodeBlock (ls : List String) : Except String (Token × Nat) :=
  match ls with
  | [] => .error "Unclosed code block"
  | opener :: rest =>
    let lang := jsTrim ⟨opener.data.drop 3⟩
    match cbLoop rest with
    | none => .error "Unclosed code block"
    | some content =>
      .ok (.mk .code_block (joinNl (ls.take (content.length + 2)))
            (some (joinNl content)) none (some lang) none none none none,
          content.length + 2)

/-- Predicate of the blockquote consumption loop:
`lines[i].startsWith(">") || lines[i].trim() === ""`. -/
def bqKeep (l : String) : Bool :=
  sStartsWith l ">" || jsTrim l = ""

/-- Predicate of the blockquote content collection:
`lines[i].trim() !== ""`. -/
def bqNonBlank (l : String) : Bool :=
  jsTrim l ≠ ""

/-- Scanning loop of `parseBlockquote`: consumes contiguous lines starting
with `>` or blank, collecting `lines[i].slice(1).trim()` for each non-blank
consumed line.  Returns the collected content and the consumed count. -/
def bqLoop : List String → List String × Nat
  | [] => ([], 0)
  | l :: rest =>
    if bqKeep l then
      let (cs, n) := bqLoop rest
      (if bqNonBlank l then jsTrim ⟨l.data.drop 1⟩ :: cs else cs, n + 1)
    else ([], 0)

/-- Markyfy.parseBlockquote on the suffix of lines starting at the opening
line, parameterised by the recursive block tokenizer `tk` applied to the
newline-joined collected content.  Returns the token and the consumed count
(the loop's final `i - startIndex`; the code returns `newIndex = i - 1` and
the caller resumes at `newIndex + 1`). -/
def parseBlockquote (tk : String → List Token) (ls : List String) :
    Token × Nat :=
  let (content, n) := bqLoop ls
  (.mk .blockquote (joinNl (ls.take n)) none none none none none none
      (some (tk (joinNl content))), n)

/-- Match of a trimmed line against the ordered list-item regex
`^(\d+\.)\s+(.+)$`: marker (digits and dot) and captured content.  Because
the input is a trimmed line (no trailing whitespace), the greedy `\s+`
followed by `(.+)` captures exactly the text after the maximal whitespace
run, which is nonempty iff the regex matches. -/
def ordItemMatch (cs : List Char) : Option (String × String) :=
  let ds := cs.takeWhile Char.isDigit
  match ds with
  | [] => none
  | _ :: _ =>
    match cs.drop ds.length with
    | '.' :: rest =>
      match rest with
      | w :: _ =>
        if isJsWs w then
          match rest.dropWhile isJsWs with
          | [] => none
          | content => some (⟨ds ++ ['.']⟩, ⟨content⟩)
        else none
      | [] => none
    | _ => none

/-- Match of a trimmed line against the unordered list-item regex
`^([-*+])\s+(.+)$`. -/
def unordItemMatch (cs : List Char) : Option (String × String) :=
  match cs with
  | m :: rest =>
    if m = '-' ∨ m = '*' ∨ m = '+' then
      match rest with
      | w :: _ =>
        if isJsWs w then
          match rest.dropWhile isJsWs with
          | [] => none
          | content => some (⟨[m]⟩, ⟨content⟩)
        else none
      | [] => none
    else none
  | [] => none

/-- Test of the first line against `/^\d+\.\s/` that fixes the list's
orderedness for the whole scan (`isOrderedList`). -/
def ordStart (cs : List Char) : Bool :=
  let ds := cs.takeWhile Char.isDigit
  match ds, cs.drop ds.length with
  | _ :: _, '.' :: w :: _ => isJsWs w
  | _, _ => false

/-- Dispatch test of `tokenize` for the list branch:
`line.trim().match(/^[-*+]\s+.+/) || line.trim().match(/^\d+\.\s+.+/)`. -/
def isListLine (trimmed : String) : Bool :=
  (unordItemMatch trimmed.data).isSome || (ordItemMatch trimmed.data).isSome

/-- Fresh list-item token pushed by `parseList` for a matching line:
`{ type: "list_item", raw: line, text: content, ordered, children:
parseInline(content) }`. -/
def listItemTok (ord : Bool) (line content : String) : Token :=
  .mk .list_item line (some content) none none none (some ord) none
    (some (parseInline content))

/-- Update of the last token of a level (models mutation of
`currentList[currentList.length - 1]`); no-op on an empty level. -/
def updateLast (f : Token → Token) : List Token → List Token
  | [] => []
  | [t] => [f t]
  | t :: ts => t :: updateLast f ts

/-- Closing of one nesting level: the completed child-items sequence becomes
`items` of the last item of the parent level.  In the source the attachment
happens by aliasing when the level is opened (`lastItem.items = newList`);
because no item is ever pushed to a parent level while a child level is open,
attaching the finished child list when the level is closed is equivalent.  A
parent level that was empty when the child was opened received no attachment,
so the child's items are dropped. -/
def attachFrame (parent child : List Token) : List Token :=
  match parent with
  | [] => []
  | p :: ps => updateLast (fun t => t.withItems (some child)) (p :: ps)

/-- Pop loop of `parseList` for a dedented item line:
`while (indent < currentIndent && listStack.length > 1) { listStack.pop();
currentIndent -= 2; }`.  The stack is represented as the top level plus the
list of levels below it (root last); returns the final tracked indentation,
top level and levels below. -/
def popWhileAux (ind : Int) : Int → List Token → List (List Token) →
    Int × List Token × List (List Token)
  | cur, top, [] => (cur, top, [])
  | cur, top, parent :: below =>
    if ind < cur then popWhileAux ind (cur - 2) (attachFrame parent top) below
    else (cur, top, parent :: below)

/-- Final unwinding when the scan ends: every still-open level is closed onto
its parent (in the source this already happened by aliasing), leaving the
root items sequence. -/
def unwindAux : List Token → List (List Token) → List Token
  | top, [] => top
  | top, parent :: below => unwindAux (attachFrame parent top) below

/-- Lazy-continuation update of the last item of the current level:
`lastItem.text += "\n" + line.trim()` guarded by `if (lastItem.text)`
(JavaScript truthiness: present and nonempty), and a plain text token
appended to `children` when present. -/
def lazyFn (trimmed : String) (t : Token) : Token :=
  match t.text with
  | some tx =>
    if tx ≠ "" then
      let t' := t.withText (some (tx ++ "\n" ++ trimmed))
      match t'.children with
      | some cs => t'.withChildren (some (cs ++ [textTok trimmed]))
      | none => t'
    else t
  | none => t

/-- Main loop of `Markyfy.parseList` over the suffix of lines, carrying the
established orderedness, the current top level, the levels below it, the
tracked indentation (`currentIndent`, an integer because repeated `-= 2` can
drive it negative) and the number of consumed lines.  Returns the root items
sequence and the consumed count. -/
def parseListAux (ord : Bool) :
    List String → List Token → List (List Token) → Int → Nat →
    List Token × Nat
  | [], top, below, _, k => (unwindAux top below, k)
  | line :: rest, top, below, cur, k =>
    let ind : Int := countLeading isJsWs line.data
    let trimmed := jsTrim line
    match (if ord then ordItemMatch trimmed.data else unordItemMatch trimmed.data) with
    | none =>
      if ind > cur ∧ trimmed ≠ "" then
        parseListAux ord rest (updateLast (lazyFn trimmed) top) below cur (k + 1)
      else (unwindAux top below, k)
    | some (_, content) =>
      if ind > cur then
        parseListAux ord rest [listItemTok ord line content] (top :: below) ind (k + 1)
      else if ind < cur then
        match popWhileAux ind cur top below with
        | (cur', top', below') =>
          parseListAux ord rest (top' ++ [listItemTok ord line content]) below' cur' (k + 1)
      else
        parseListAux ord rest (top ++ [listItemTok ord line content]) below cur (k + 1)

/-- Markyfy.parseList on the suffix of lines starting at the first item line.
Returns the list token and the number of consumed lines. -/
def parseList (ls : List String) : Token × Nat :=
  match ls with
  | [] => (.mk .list "" none none none none (some false) (some []) none, 0)
  | first :: _ =>
    let ord := ordStart (jsTrim first).data
    match parseListAux ord ls [] [] 0 0 with
    | (items, k) =>
      (.mk .list (joinNl (ls.take k)) none none none none (some ord)
          (some items) none, k)

/-- Demoted paragraph pushed by the per-line catch handler of `tokenize`:
`{ type: "paragraph", raw: lines[i], text: this.escapeHtml(lines[i]) }`. -/
def demotedLine (line : String) : Token :=
  .mk .paragraph line (some (escapeHtml line)) none none none none none none

/-- Per-line loop of `Markyfy.tokenize` over the suffix of remaining lines.
Dispatch order per line: `#` header, `>` blockquote, triple-backtick code
block, list-item pattern, non-blank paragraph, blank skipped.  Multi-line
sub-parsers return their consumed count `k`; the loop resumes after the
consumed span (`i = newIndex` then `i++`).  The only exception site in the
loop body is `parseCodeBlock`'s unclosed-fence throw; the surrounding
per-line `try`/`catch` demotes the offending line and resumes with the next
line.  The fuel counts loop iterations (each consumes at least one line) and
bounds the depth of the blockquote recursion; the top-level wrapper supplies
an input-length bound. -/
def tokenizeAux : Nat → List String → List Token
  | 0, _ => []
  | _ + 1, [] => []
  | fuel + 1, line :: rest =>
    if sStartsWith line "#" then
      parseHeader line :: tokenizeAux fuel rest
    else if sStartsWith line ">" then
      match parseBlockquote (fun s => tokenizeAux fuel (splitLines (jsTrim s))) (line :: rest) with
      | (tok, k) => tok :: tokenizeAux fuel (rest.drop (k - 1))
    else if sStartsWith line "```" then
      match parseCodeBlock (line :: rest) with
      | .ok (tok, k) => tok :: tokenizeAux fuel (rest.drop (k - 1))
      | .error _ => demotedLine line :: tokenizeAux fuel rest
    else if isListLine (jsTrim line) then
      match parseList (line :: rest) with
      | (tok, k) => tok :: tokenizeAux fuel (rest.drop (k - 1))
    else if jsTrim line ≠ "" then
      (.mk .paragraph line none none none none none none (some (parseInline line)))
        :: tokenizeAux fuel rest
    else
      tokenizeAux fuel rest

/-- Markyfy.tokenize: trim the document once, split into lines, run the
per-line loop. -/
def tokenize (md : String) : List Token :=
  tokenizeAux (md.data.length + 1) (splitLines (jsTrim md))

/-- Constant prefix of the code_block render template. -/
def cbTplA : String :=
  "\n            <pre>\n              <code class=\"language-"

/-- Template piece between the language tag and the highlighted code. -/
def cbTplB : String :=
  "\">"

/-- Constant suffix of the code_block render template (the style block). -/
def cbTplC : String :=
  "</code>\n            </pre>\n            <style>\n              pre \x7b\n                display: flex;\n                flex-direction: column;\n                justify-content: center;\n                background: #282c34;\n                color: #abb2bf;\n                padding: 1rem;\n                border-radius: 5px;\n                overflow-x: auto;\n\n                code \x7b\n                  font-family: \"Fira Code\", monospace;\n                  font-size: 14px;\n                  background: initial;\n                  color: white;\n                  line-height: 1.5;\n                \x7d\n              \x7d\n              .token.keyword \x7b color: #c678dd; \x7d\n              .token.function \x7b color: #61afef; \x7d\n              .token.string \x7b color: #ce9178; \x7d\n              .token.comment \x7b color: #7c858d; \x7d\n              .token.number \x7b color: #b5cea8; \x7d\n              .token.boolean \x7b color: #569cd6; \x7d\n              .token.type \x7b color: #4ec9b0; \x7d\n              .token.class \x7b color: #4ec9b0; \x7d\n              .token.punctuation \x7b color: #abb2bf; \x7d \n            </style>\n          "

/-- Constant pieces of the list render template. -/
def listTplA : String :=
  "\n              <"

def listTplB : String :=
  ">\n"

def listTplC : String :=
  "\n</"

/-- Constant suffix of the list render template (the style block). -/
def listTplD : String :=
  ">\n              <style>\n                ul \x7b\n                  list-style-type: disc;\n                  padding-left: 20px;\n                  display: block;\n                  margin-block-start: 1em;\n                  margin-block-end: 1em;\n                  margin-inline-start: 0px;\n                  margin-inline-end: 0px;\n                  padding-inline-start: 40px;\n                  unicode-bidi: isolate;\n                \x7d\n                \n                ol \x7b\n                  list-style-type: decimal;\n                  padding-left: 20px;\n                  display: block;\n                  margin-block-start: 1em;\n                  margin-block-end: 1em;\n                  margin-inline-start: 0px;\n                  margin-inline-end: 0px;\n                  padding-inline-start: 40px;\n                  unicode-bidi: isolate;\n                \x7d\n\n                ul ul \x7b\n                  list-style-type: circle;\n                \x7d\n                \n                ul ul ul \x7b\n                  list-style-type: square;\n                \x7d\n                \n                ol ol \x7b\n                  list-style-type: lower-alpha;\n                \x7d\n                \n                ol ol ol \x7b\n                  list-style-type: lower-roman;\n                \x7d\n              </>\n            "

/-- Characters stripped from URL ends by the URL parser: C0 controls and space. -/
def isC0OrSpace (c : Char) : Bool :=
  c.toNat ≤ 0x20

/-- Test for an ASCII letter, the required first character of a URL scheme. -/
def isAsciiAlpha (c : Char) : Bool :=
  decide (('a' ≤ c ∧ c ≤ 'z') ∨ ('A' ≤ c ∧ c ≤ 'Z'))

/-- Characters allowed after the first in a URL scheme. -/
def isSchemeChar (c : Char) : Bool :=
  isAsciiAlpha c || c.isDigit || decide (c = '+' ∨ c = '-' ∨ c = '.')

/-- Model of the WHATWG URL constructor's scheme handling, used for
`new URL(url)` in `sanitizeUrl` (a platform API, not part of this
repository's sources).  The input is stripped of leading/trailing
C0-control-or-space characters and of embedded tab/newline characters; an
absolute URL then begins with a scheme — an ASCII letter followed by ASCII
alphanumerics, `+`, `-` or `.` — terminated by `:`, and the parsed protocol
is the lowercased scheme with the colon.  A string with no such scheme fails
to parse (a relative reference throws when no base is given).  For a
non-special scheme such as `javascript:` any remainder parses as an opaque
path, and for the blocked-versus-unchanged distinction made by `sanitizeUrl`
the special-scheme host requirements are invisible: a special-scheme string
the real parser rejects is returned unchanged via the catch, and one it
accepts is returned unchanged via the non-`javascript:` branch. -/
def urlProtocol (u : String) : Option String :=
  let cs := (((u.data.dropWhile isC0OrSpace).reverse.dropWhile isC0OrSpace).reverse).filter
    (fun c => decide (c ≠ '\t' ∧ c ≠ '\n' ∧ c ≠ '\r'))
  match cs with
  | [] => none
  | c :: rest =>
    if isAsciiAlpha c then
      let schemeRest := rest.takeWhile isSchemeChar
      match rest.drop schemeRest.length with
      | ':' :: _ => some ⟨(c :: schemeRest).map Char.toLower ++ [':']⟩
      | _ => none
    else none

/-- Markyfy.sanitizeUrl: `new URL(url)` in a try/catch; a parsed protocol of
exactly `javascript:` yields the empty string, any other parse outcome —
different protocol, or parse failure handled by the catch — returns the URL
unchanged. -/
def sanitizeUrl (url : String) : String :=
  match urlProtocol url with
  | some p => if p = "javascript:" then "" else url
  | none => url

/-- Collapse every maximal run of characters satisfying `p` into the single
character `rep`; models one `replace(/X+/g, "Y")` pass of `slugify`.  The
boolean flag records whether the previous character belonged to a run. -/
def collapseRuns (p : Char → Bool) (rep : Char) : List Char → Bool → List Char
  | [], _ => []
  | c :: cs, inRun =>
    if p c then
      (if inRun then collapseRuns p rep cs true else rep :: collapseRuns p rep cs true)
    else c :: collapseRuns p rep cs false

/-- Markyfy.slugify: lowercase, delete characters outside `[a-z0-9 -]`,
collapse whitespace runs to `-`, collapse `-` runs. -/
def slugify (s : String) : String :=
  let lowered := s.data.map Char.toLower
  let kept := lowered.filter (fun c =>
    decide (('a' ≤ c ∧ c ≤ 'z') ∨ ('0' ≤ c ∧ c ≤ '9') ∨ c = ' ' ∨ c = '-'))
  let hyph := collapseRuns isJsWs '-' kept false
  ⟨collapseRuns (· = '-') '-' hyph false⟩

end Markyfy

namespace SyntaxHighlighter

/-- Language keys pre-registered by the SyntaxHighlighter constructor, each
mapped to the `name` of its language definition; the rule sets themselves
are regular-expression driven and live behind the `rulesApply` parameter of
`highlight`. -/
def registeredLanguages : List (String × String) :=
  [("javascript", "javascript"), ("js", "javascript")]

/-- SyntaxHighlighter.highlight: `this.languages.get(lang)`; an unregistered
language returns the code unchanged (`if (!language) return code;`), with no
escaping and no span wrapping.  For a registered language the code is
HTML-escaped and wrapped in category spans by the regex rule engine, which
the embedding abstracts as the `rulesApply` parameter. -/
def highlight (rulesApply : String → String → String) (code lang : String) :
    String :=
  match registeredLanguages.lookup lang with
  | some _ => rulesApply lang code
  | none => code

end SyntaxHighlighter

namespace Markyfy

/-- Parser options (src `ParserOptions`), with the constructor defaults
`gfm: true, breaks: false, headerIds: true, sanitize: true`. -/
structure ParserOptions where
  gfm : Bool
  breaks : Bool
  headerIds : Bool
  sanitize : Bool

/-- Default option record built by the Markyfy constructor. -/
def defaultOptions : ParserOptions :=
  ⟨true, false, true, true⟩

/-- Concatenated render of inline children:
`children.map((child) => this.tokensToHtml([child])).join("")`, the
token-wise render concatenated without separators; absent children render as
the empty string. -/
def renderChildrenWith (renderTok : Token → String) :
    Option (List Token) → String
  | none => ""
  | some cs => String.join (cs.map renderTok)

/-- The recursive `renderListItems` closure of the list render branch: each
item becomes `<li>` inline-children `</li>`, with a nested list block when
the item carries an `items` field, all joined by newlines.  The fuel bounds
the nesting depth. -/
def renderListItems (renderTok : Token → String) : Nat → List Token → String
  | 0, _ => ""
  | fuel + 1, items =>
    String.intercalate "\n" (items.map (fun item =>
      "<li>" ++ renderChildrenWith renderTok item.children ++
        (match item.items with
         | none => ""
         | some nested => "\n" ++ renderListItems renderTok fuel nested ++ "\n") ++
        "</li>"))

/-- Per-token serialization of `Markyfy.tokensToHtml` (the `switch` on
`token.type`), parameterised by the highlighter rule engine `hf` and the
options.  The fuel bounds the recursion depth through children; callers
supply a bound no smaller than the token tree depth. -/
def renderAux (hf : String → String → String) (opts : ParserOptions) :
    Nat → Token → String
  | 0, _ => ""
  | fuel + 1, t =>
    match t.type with
    | .header =>
      let idAttr :=
        if opts.headerIds then " id=\"" ++ slugify (t.text.getD "") ++ "\"" else ""
      let depthS := match t.depth with | some d => toString d | none => "undefined"
      "<h" ++ depthS ++ idAttr ++ ">" ++
        renderChildrenWith (renderAux hf opts fuel) t.children ++
        "</h" ++ depthS ++ ">"
    | .code_block =>
      let highlighted :=
        SyntaxHighlighter.highlight hf (t.text.getD "") (t.lang.getD "")
      cbTplA ++ t.lang.getD "" ++ cbTplB ++ highlighted ++ cbTplC
    | .paragraph =>
      "<p>" ++ renderChildrenWith (renderAux hf opts fuel) t.children ++ "</p>"
    | .blockquote =>
      "<blockquote>" ++
        String.intercalate "\n" ((t.children.getD []).map (renderAux hf opts fuel)) ++
        "</blockquote>"
    | .list =>
      let tag := if t.ordered.getD false then "ol" else "ul"
      listTplA ++ tag ++ listTplB ++
        renderListItems (renderAux hf opts fuel) fuel (t.items.getD []) ++
        listTplC ++ tag ++ listTplD
    | .bold => "<strong>" ++ escapeHtml (t.text.getD "") ++ "</strong>"
    | .italic => "<em>" ++ escapeHtml (t.text.getD "") ++ "</em>"
    | .code => "<code>" ++ escapeHtml (t.text.getD "") ++ "</code>"
    | .link =>
      let url :=
        if opts.sanitize then sanitizeUrl (t.url.getD "")
        else match t.url with | some u => u | none => "undefined"
      "<a href=\"" ++ url ++ "\">" ++ escapeHtml (t.text.getD "") ++ "</a>"
    | _ => escapeHtml (t.text.getD "")

/-- Markyfy.tokensToHtml: one HTML fragment per token, joined by newlines. -/
def tokensToHtml (hf : String → String → String) (opts : ParserOptions)
    (fuel : Nat) (ts : List Token) : String :=
  String.intercalate "\n" (ts.map (renderAux hf opts fuel))

/-- Top-level try/catch boundary of `Markyfy.parse`: an `ok` pipeline result
is returned as-is; any error value reaching the boundary is replaced by the
HTML-escaped original (untrimmed) input document. -/
def parseWith (res : Except String String) (md : String) : String :=
  match res with
  | .ok html => html
  | .error _ => escapeHtml md

/-- Outcome of the tokenize-then-render pipeline inside the try block.  In
the embedding both stages are total — the only raise site
(`parseCodeBlock`'s unclosed-fence error) is caught by `tokenize`'s own
per-line handler — so the pipeline always produces an `ok` value; runtime
exceptions outside the pure model (such as call-stack exhaustion) are the
error values `parseWith` ranges over. -/
def pipeline (hf : String → String → String) (opts : ParserOptions)
    (md : String) : Except String String :=
  Except.ok (tokensToHtml hf opts (md.data.length + 1) (tokenize md))

/-- Markyfy.parse: the tokenize-then-render pipeline inside the top-level
catch boundary. -/
def parse (hf : String → String → String) (opts : ParserOptions)
    (md : String) : String :=
  parseWith (pipeline hf opts md) md

/-- Concatenation of the `raw` fields of a token sequence, in order. -/
def rawConcat (ts : List Token) : String :=
  ts.foldr (fun t acc => t.raw ++ acc) ""

/-- Character-level concatenation of the `raw` fields, used to relate the
inline scan to its input. -/
def rawFold (ts : List Token) : List Char :=
  ts.foldr (fun t acc => t.raw.data ++ acc) []

/-- The contiguous run of lines consumed by `parseBlockquote`. -/
def bqRun (ls : List String) : List String :=
  ls.takeWhile bqKeep

/-- The content collected by `parseBlockquote` from a consumed run: each
non-blank line contributes `line.slice(1).trim()` — the line with the
leading `>` removed and the remainder trimmed of whitespace at both ends. -/
def bqContent (run : List String) : List String :=
  (run.filter bqNonBlank).map (fun l => jsTrim (String.mk (l.data.drop 1)))

/-- Strip operation asserted by the claim about blockquote content (spec
wording): remove the leading `>` character and one following space, altering
no other whitespace of the line. -/
def claimStrip (l : String) : String :=
  match l.data with
  | '>' :: ' ' :: rest => String.mk rest
  | '>' :: rest => String.mk rest
  | cs => String.mk cs

/-- Pop loop as worded by the claim about list dedenting: pop one level and
decrement the tracked indentation by 2 per iteration "until the indentation
matches or only the root level remains" — i.e. stop only on equality or at
the root, rather than when the indentation is no longer strictly less. -/
def popWhileClaimAux (ind : Int) : Int → List Token → List (List Token) →
    Int × List Token × List (List Token)
  | cur, top, [] => (cur, top, [])
  | cur, top, parent :: below =>
    if ind ≠ cur then popWhileClaimAux ind (cur - 2) (attachFrame parent top) below
    else (cur, top, parent :: below)

/-- The `parseList` loop with the claim's wording of the pop condition
substituted; identical to `parseListAux` except that a dedented item line
pops via `popWhileClaimAux`. -/
def parseListClaimAux (ord : Bool) :
    List String → List Token → List (List Token) → Int → Nat →
    List Token × Nat
  | [], top, below, _, k => (unwindAux top below, k)
  | line :: rest, top, below, cur, k =>
    let ind : Int := countLeading isJsWs line.data
    let trimmed := jsTrim line
    match (if ord then ordItemMatch trimmed.data else unordItemMatch trimmed.data) with
    | none =>
      if ind > cur ∧ trimmed ≠ "" then
        parseListClaimAux ord rest (updateLast (lazyFn trimmed) top) below cur (k + 1)
      else (unwindAux top below, k)
    | some (_, content) =>
      if ind > cur then
        parseListClaimAux ord rest [listItemTok ord line content] (top :: below) ind (k + 1)
      else if ind < cur then
        match popWhileClaimAux ind cur top below with
        | (cur2, top2, below2) =>
          parseListClaimAux ord rest (top2 ++ [listItemTok ord line content]) below2 cur2 (k + 1)
      else
        parseListClaimAux ord rest (top ++ [listItemTok ord line content]) below cur (k + 1)

/-- Entry point for `parseListClaimAux`, mirroring `parseList`. -/
def parseListClaim (ls : List String) : Token × Nat :=
  match ls with
  | [] => (.mk .list "" none none none none (some false) (some []) none, 0)
  | first :: _ =>
    let ord := ordStart (jsTrim first).data
    match parseListClaimAux ord ls [] [] 0 0 with
    | (items, k) =>
      (.mk .list (joinNl (ls.take k)) none none none none (some ord)
          (some items) none, k)

end Markyfy

namespace Markyfy

/-! ### Generic helper lemmas -/

theorem string_ext {a b : String} (h : a.data = b.data) : a = b := by
  cases a
  cases b
  exact congrArg String.mk h

theorem data_append (a b : String) : (a ++ b).data = a.data ++ b.data := by
  cases a
  cases b
  rfl

theorem findChar_lt {c : Char} {l : List Char} {j : Nat}
    (h : findChar c l = some j) : j < l.length := by
  induction l generalizing j with
  | nil => simp [findChar] at h
  | cons x rest ih =>
    simp only [findChar] at h
    split at h
    · cases h
      simp
    · rw [Option.map_eq_some'] at h
      obtain ⟨j', hj', rfl⟩ := h
      have := ih hj'
      simp
      omega

theorem findMark_le {a b : Char} {l : List Char} {j : Nat}
    (h : findMark a b l = some j) : j + 2 ≤ l.length := by
  induction l generalizing j with
  | nil => simp [findMark] at h
  | cons x tail ih =>
    cases tail with
    | nil => simp [findMark] at h
    | cons y rest =>
      simp only [findMark] at h
      split at h
      · cases h
        simp
      · rw [Option.map_eq_some'] at h
        obtain ⟨j', hj', rfl⟩ := h
        have := ih hj'
        simp at this ⊢
        omega

/-! ### Inline scan: raw spans of one recognition step -/

theorem tryBold_spec {rest : List Char} {t : Token} {n : Nat}
    (h : tryBold rest = some (t, n)) :
    t.raw.data = rest.take n ∧ 0 < n ∧ n ≤ rest.length := by
  match rest with
  | [] => simp [tryBold] at h
  | [a] => simp [tryBold] at h
  | a :: b :: cs =>
    simp only [tryBold] at h
    split at h
    · split at h
      · rename_i j hj
        cases h
        refine ⟨rfl, by omega, ?_⟩
        have := findMark_le hj
        simp
        omega
      · exact absurd h (by simp)
    · exact absurd h (by simp)

theorem tryItalic_spec {rest : List Char} {t : Token} {n : Nat}
    (h : tryItalic rest = some (t, n)) :
    t.raw.data = rest.take n ∧ 0 < n ∧ n ≤ rest.length := by
  match rest with
  | [] => simp [tryItalic] at h
  | c :: cs =>
    simp only [tryItalic] at h
    split at h
    · rw [Option.map_eq_some'] at h
      obtain ⟨j, hj, heq⟩ := h
      cases heq
      refine ⟨rfl, by omega, ?_⟩
      have := findChar_lt hj
      simp
      omega
    · exact absurd h (by simp)

theorem tryCode_spec {rest : List Char} {t : Token} {n : Nat}
    (h : tryCode rest = some (t, n)) :
    t.raw.data = rest.take n ∧ 0 < n ∧ n ≤ rest.length := by
  match rest with
  | [] => simp [tryCode] at h
  | c :: cs =>
    simp only [tryCode] at h
    split at h
    · rw [Option.map_eq_some'] at h
      obtain ⟨j, hj, heq⟩ := h
      cases heq
      refine ⟨rfl, by omega, ?_⟩
      have := findChar_lt hj
      simp
      omega
    · exact absurd h (by simp)

theorem tryLink_spec {rest : List Char} {t : Token} {n : Nat}
    (h : tryLink rest = some (t, n)) :
    t.raw.data = rest.take n ∧ 0 < n ∧ n ≤ rest.length := by
  match rest with
  | [] => simp [tryLink] at h
  | c :: cs =>
    simp only [tryLink] at h
    split at h <;> try (solve | simp at h)
    split at h <;> try (solve | simp at h)
    rename_i t0 ht0
    split at h <;> try (solve | simp at h)
    split at h <;> try (solve | simp at h)
    rename_i u hu
    cases h
    refine ⟨rfl, by omega, ?_⟩
    have h1 := findChar_lt ht0
    have h2 := findChar_lt hu
    simp [List.length_drop] at h1 h2 ⊢
    omega

theorem inlineStep_spec {rest : List Char} {t : Token} {n : Nat}
    (h : inlineStep rest = some (t, n)) :
    t.raw.data = rest.take n ∧ 0 < n ∧ n ≤ rest.length := by
  simp only [inlineStep] at h
  split at h
  · cases h
    exact tryBold_spec (by assumption)
  · split at h
    · cases h
      exact tryItalic_spec (by assumption)
    · split at h
      · cases h
        exact tryCode_spec (by assumption)
      · exact tryLink_spec h

/-! ### Raw concatenation of the inline scan -/

theorem rawFold_flush (cur : List Char) : rawFold (mkFlush cur) = cur := by
  cases cur <;> simp [mkFlush, rawFold, textTok, Token.raw]

theorem rawFold_flush_append (cur : List Char) (l : List Token) :
    rawFold (mkFlush cur ++ l) = cur ++ rawFold l := by
  cases cur <;> simp [mkFlush, rawFold, textTok, Token.raw]

theorem parseInlineAux_rawFold :
    ∀ (fuel : Nat) (rest current : List Char), rest.length ≤ fuel →
      rawFold (parseInlineAux fuel rest current) = current ++ rest := by
  intro fuel
  induction fuel with
  | zero =>
    intro rest current h
    have hr : rest = [] := List.length_eq_zero.mp (Nat.le_zero.mp h)
    subst hr
    simp [parseInlineAux, rawFold_flush]
  | succ fuel ih =>
    intro rest current h
    cases rest with
    | nil => simp [parseInlineAux, rawFold_flush]
    | cons c cs =>
      simp only [parseInlineAux]
      cases hstep : inlineStep (c :: cs) with
      | some pr =>
        obtain ⟨tok, n⟩ := pr
        obtain ⟨hraw, hn0, hnle⟩ := inlineStep_spec hstep
        have hlen : ((c :: cs).drop n).length ≤ fuel := by
          simp [List.length_drop]
          simp at h hnle
          omega
        rw [rawFold_flush_append]
        show current ++ rawFold (tok :: parseInlineAux fuel ((c :: cs).drop n) []) =
          current ++ (c :: cs)
        have : rawFold (tok :: parseInlineAux fuel ((c :: cs).drop n) []) =
            tok.raw.data ++ rawFold (parseInlineAux fuel ((c :: cs).drop n) []) := rfl
        rw [this, ih _ _ hlen, hraw]
        simp [List.take_append_drop]
      | none =>
        rw [ih cs (current ++ [c]) (by simp at h ⊢; omega)]
        simp

theorem rawConcat_data (ts : List Token) : (rawConcat ts).data = rawFold ts := by
  induction ts with
  | nil => rfl
  | cons t ts ih =>
    show (t.raw ++ rawConcat ts).data = t.raw.data ++ rawFold ts
    rw [data_append, ih]

/-- C9: for every input line, concatenating the `raw` fields of the tokens
returned by `parseInline`, in output order, reconstructs exactly the
original input line — every character is covered by exactly one token's raw
span, with no gaps and no overlaps. -/
theorem parseInline_raw_reconstruction (s : String) :
    rawConcat (parseInline s) = s := by
  apply string_ext
  rw [rawConcat_data]
  unfold parseInline
  rw [parseInlineAux_rawFold _ _ _ (Nat.le_refl _)]
  simp

/-- C4: `parseInline` checks bold before italic at each position, so
`"**a*b*c**"` yields exactly one token — a bold token with text `a*b*c` —
with no italic token for the inner single asterisks and the inner content
captured as raw text without further inline tokenization. -/
theorem parseInline_bold_precedence :
    parseInline "**a*b*c**" =
      [Token.mk .bold "**a*b*c**" (some "a*b*c") none none none none none none] := rfl

end Markyfy

namespace Markyfy

/-! ### Header parsing -/

theorem countLeading_cons_false {p : Char → Bool} {c : Char} (cs : List Char)
    (h : p c = false) : countLeading p (c :: cs) = 0 := by
  simp [countLeading, h]

theorem countLeading_replicate_stop {p : Char → Bool} {a : Char}
    (ha : p a = true) {w : List Char} (hw : countLeading p w = 0) (n : Nat) :
    countLeading p (List.replicate n a ++ w) = n := by
  induction n with
  | zero =>
    simp only [List.replicate, List.nil_append]
    exact hw
  | succ n ih => simp [List.replicate, countLeading, ha, ih]

theorem countLeading_replicate {p : Char → Bool} {a : Char} (ha : p a = true)
    (n : Nat) : countLeading p (List.replicate n a) = n := by
  induction n with
  | zero => simp [countLeading]
  | succ n ih => simp [List.replicate, countLeading, ha, ih]

theorem dropWhile_all_prefix {p : Char → Bool} {w : List Char}
    (hw : ∀ c ∈ w, p c = true) {rc : Char} (hrc : p rc = false) (rs : List Char) :
    (w ++ rc :: rs).dropWhile p = rc :: rs := by
  induction w with
  | nil => simp [List.dropWhile, hrc]
  | cons c w' ih =>
    have hc : p c = true := hw c (by simp)
    simp only [List.cons_append, List.dropWhile_cons, hc, if_true]
    exact ih (fun x hx => hw x (by simp [hx]))

/-- C6: a line of 1–6 leading `#` characters followed by whitespace and
non-empty text parses to a header token whose depth is the number of leading
`#`; a line of more than 6 `#` characters, or a bare `#`-run with no
following text, parses to a paragraph token whose children are the inline
tokenization of the literal line. -/
theorem parseHeader_depth_and_fallback :
    (∀ (h : Nat) (w : List Char) (rc : Char) (rs : List Char) (line : String),
        line.data = List.replicate h '#' ++ w ++ rc :: rs →
        1 ≤ h → h ≤ 6 → w ≠ [] →
        (∀ c ∈ w, isJsWs c = true) → isJsWs rc = false →
        parseHeader line =
          Token.mk .header line (some ⟨rc :: rs⟩) (some h) none none none none
            (some (parseInline ⟨rc :: rs⟩))) ∧
    (∀ (k : Nat) (line : String),
        line.data = List.replicate k '#' → 1 ≤ k →
        parseHeader line =
          Token.mk .paragraph line none none none none none none
            (some (parseInline line))) := by
  constructor
  · intro h w rc rs line hdata h1 h6 hw hwall hrc
    obtain ⟨wc, ws', rfl⟩ := List.exists_cons_of_ne_nil hw
    have hwc : isJsWs wc = true := hwall wc (by simp)
    have hwcne : wc ≠ '#' := by
      intro he
      rw [he] at hwc
      exact absurd hwc (by decide)
    have hcount : countLeading (fun c => decide (c = '#')) line.data = h := by
      rw [hdata]
      simp only [List.append_assoc, List.cons_append]
      have hpa : (fun c => decide (c = '#')) '#' = true := by decide
      have hpw : (fun c => decide (c = '#')) wc = false := decide_eq_false hwcne
      exact countLeading_replicate_stop hpa
        (@countLeading_cons_false (fun c => decide (c = '#')) wc
          (ws' ++ rc :: rs) hpw) h
    have hdrop : line.data.drop h = wc :: (ws' ++ rc :: rs) := by
      rw [hdata]
      rw [show List.replicate h '#' ++ (wc :: ws') ++ rc :: rs =
        List.replicate h '#' ++ (wc :: (ws' ++ rc :: rs)) by simp]
      exact List.drop_left' (List.length_replicate h '#')
    have hdw : (wc :: (ws' ++ rc :: rs)).dropWhile isJsWs = rc :: rs := by
      have : ((wc :: ws') ++ rc :: rs).dropWhile isJsWs = rc :: rs :=
        dropWhile_all_prefix hwall hrc rs
      simpa using this
    simp only [parseHeader, hcount, hdrop, hdw, hwc]
    simp [h1, h6]
  · intro k line hdata h1
    have hcount : countLeading (fun c => decide (c = '#')) line.data = k := by
      rw [hdata]
      have hpa : (fun c => decide (c = '#')) '#' = true := by decide
      exact countLeading_replicate hpa k
    have hdrop : line.data.drop k = [] := by
      rw [hdata]
      have := List.drop_length (List.replicate k '#')
      rwa [List.length_replicate] at this
    by_cases h6 : k ≤ 6
    · simp only [parseHeader, hcount, hdrop]
      rw [if_pos ⟨h1, h6⟩]
      rfl
    · simp only [parseHeader, hcount, hdrop]
      rw [if_neg (by omega)]
      rfl

/-- Witness for C6: `"## hi"` is a depth-2 header and `"#######"` falls back
to a paragraph. -/
theorem parseHeader_depth_and_fallback_witness :
    parseHeader "## hi" =
      Token.mk .header "## hi" (some "hi") (some 2) none none none none
        (some (parseInline "hi")) ∧
    parseHeader "#######" =
      Token.mk .paragraph "#######" none none none none none none
        (some (parseInline "#######")) := by
  constructor
  · exact parseHeader_depth_and_fallback.1 2 [' '] 'h' ['i'] "## hi"
      (by decide) (by decide) (by decide) (by decide) (by decide) (by decide)
  · exact parseHeader_depth_and_fallback.2 7 "#######" (by decide) (by decide)

/-! ### Unterminated code fences -/

theorem hasPrefixChars_cons {p : Char} {ps l : List Char}
    (h : hasPrefixChars (p :: ps) l = true) :
    ∃ t, l = p :: t ∧ hasPrefixChars ps t = true := by
  cases l with
  | nil => simp [hasPrefixChars] at h
  | cons c cs =>
    simp only [hasPrefixChars, Bool.and_eq_true, decide_eq_true_eq] at h
    obtain ⟨rfl, h2⟩ := h
    exact ⟨cs, rfl, h2⟩

theorem cbLoop_none {rest : List String}
    (h : ∀ l ∈ rest, sStartsWith l "```" = false) : cbLoop rest = none := by
  induction rest with
  | nil => rfl
  | cons l ls ih =>
    simp only [cbLoop, h l (by simp)]
    simp [ih (fun x hx => h x (by simp [hx]))]

/-- C2: a fenced code block opener with no closing fence before end-of-input
makes `parseCodeBlock` raise the `"Unclosed code block"` error, which the
per-line handler of `tokenize` catches: exactly the opening fence line is
demoted to a paragraph token carrying its HTML-escaped raw text, and
tokenization continues with the line after the opening fence. -/
theorem tokenize_unclosed_fence_demoted (fuel : Nat) (opener : String)
    (rest : List String)
    (hop : sStartsWith opener "```" = true)
    (hrest : ∀ l ∈ rest, sStartsWith l "```" = false) :
    parseCodeBlock (opener :: rest) = Except.error "Unclosed code block" ∧
    tokenizeAux (fuel + 1) (opener :: rest) =
      demotedLine opener :: tokenizeAux fuel rest := by
  have hcb : parseCodeBlock (opener :: rest) = .error "Unclosed code block" := by
    simp [parseCodeBlock, cbLoop_none hrest]
  refine ⟨hcb, ?_⟩
  have hop' : hasPrefixChars ['`', '`', '`'] opener.data = true := hop
  obtain ⟨t0, ht0, _⟩ := hasPrefixChars_cons hop'
  have hhash : sStartsWith opener "#" = false := by
    show hasPrefixChars ['#'] opener.data = false
    rw [ht0]
    simp [hasPrefixChars]
  have hquote : sStartsWith opener ">" = false := by
    show hasPrefixChars ['>'] opener.data = false
    rw [ht0]
    simp [hasPrefixChars]
  simp only [tokenizeAux, hhash, hquote, hop, hcb]
  simp

/-- Witness for C2: the two-line document `"```js" / "x"` demotes the opener
and goes on to tokenize the remaining line. -/
theorem tokenize_unclosed_fence_demoted_witness :
    parseCodeBlock ["```js", "x"] = Except.error "Unclosed code block" ∧
    tokenizeAux 3 ["```js", "x"] = demotedLine "```js" :: tokenizeAux 2 ["x"] :=
  tokenize_unclosed_fence_demoted 2 "```js" ["x"] (by decide)
    (by intro l hl; simp at hl; subst hl; decide)

end Markyfy

namespace Markyfy

/-! ### Blockquote content collection -/

theorem bqLoop_eq (ls : List String) :
    bqLoop ls = (bqContent (bqRun ls), (bqRun ls).length) := by
  induction ls with
  | nil => rfl
  | cons l rest ih =>
    simp only [bqLoop, bqRun, List.takeWhile_cons]
    cases hk : bqKeep l with
    | true =>
      simp only [if_true, ih, bqContent, List.filter_cons, List.length_cons]
      cases hb : bqNonBlank l <;> simp [hb, bqRun]
    | false => simp [bqContent]

/-- C5 (amended): every non-blank consumed line contributes to the collected
blockquote content the line with its leading `>` character removed and the
remainder trimmed of whitespace at both ends (`lines[i].slice(1).trim()`),
not merely one following space removed; the collected lines are
newline-joined and recursively tokenized as the blockquote's children, and
the consumed run is the contiguous prefix of `>`-prefixed or blank lines. -/
theorem parseBlockquote_content_strip (tk : String → List Token)
    (ls : List String) :
    parseBlockquote tk ls =
      (Token.mk .blockquote (joinNl (ls.take (bqRun ls).length)) none none none
          none none none (some (tk (joinNl (bqContent (bqRun ls))))),
        (bqRun ls).length) := by
  simp [parseBlockquote, bqLoop_eq]

/-- Counterexample for C5 as stated: on the line `">  b"` (two spaces) the
code collects `"b"`, whereas removing only the leading `>` and one following
space would leave `" b"`. -/
theorem parseBlockquote_strip_cex :
    bqLoop [">  b"] = (["b"], 1) ∧
    claimStrip ">  b" = " b" ∧
    ("b" : String) ≠ " b" := by
  refine ⟨rfl, rfl, by decide⟩

end Markyfy

namespace Markyfy

/-! ### List nesting steps -/

theorem updateLast_append_singleton (f : Token → Token) (pre : List Token)
    (x : Token) : updateLast f (pre ++ [x]) = pre ++ [f x] := by
  induction pre with
  | nil => simp [updateLast]
  | cons p ps ih =>
    obtain ⟨y, ys, hys⟩ : ∃ y ys, ps ++ [x] = y :: ys := by
      cases ps <;> exact ⟨_, _, rfl⟩
    calc updateLast f ((p :: ps) ++ [x])
        = updateLast f (p :: (ps ++ [x])) := by simp
      _ = p :: updateLast f (ps ++ [x]) := by rw [hys]; simp [updateLast]
      _ = p :: (ps ++ [f x]) := by rw [ih]
      _ = (p :: ps) ++ [f x] := by simp

theorem attachFrame_append (pre : List Token) (lastI : Token)
    (child : List Token) :
    attachFrame (pre ++ [lastI]) child =
      pre ++ [lastI.withItems (some child)] := by
  obtain ⟨y, ys, hys⟩ : ∃ y ys, pre ++ [lastI] = y :: ys := by
    cases pre <;> exact ⟨_, _, rfl⟩
  have h1 : attachFrame (pre ++ [lastI]) child =
      updateLast (fun t => t.withItems (some child)) (pre ++ [lastI]) := by
    rw [hys]
    simp [attachFrame]
  rw [h1, updateLast_append_singleton]

/-- C3 (amended): during a list scan, an item line whose indentation is
strictly greater than the tracked indentation opens exactly one new nesting
level (a fresh empty level pushed above the current one, tracked indentation
set to the line's indent) whose items sequence is attached as `items` on the
last item of the parent level when that level is closed — a no-op attachment
(the child items are dropped) when that level is empty; an item line whose
indentation is strictly less pops one level per iteration, decrementing the
tracked indentation by exactly 2 per pop, until the indentation is no longer
strictly less than the tracked indentation or only the root level remains
(not: until the indentation matches). -/
theorem parseList_nesting_steps :
    (∀ (ord : Bool) (line : String) (rest : List String) (top : List Token)
        (below : List (List Token)) (cur : Int) (k : Nat) (m c : String),
        (if ord then ordItemMatch (jsTrim line).data
         else unordItemMatch (jsTrim line).data) = some (m, c) →
        (((countLeading isJsWs line.data : Int) > cur →
          parseListAux ord (line :: rest) top below cur k =
            parseListAux ord rest [listItemTok ord line c] (top :: below)
              (countLeading isJsWs line.data) (k + 1)) ∧
         ((countLeading isJsWs line.data : Int) < cur →
          parseListAux ord (line :: rest) top below cur k =
            (match popWhileAux (countLeading isJsWs line.data) cur top below with
             | (cur2, top2, below2) =>
               parseListAux ord rest (top2 ++ [listItemTok ord line c]) below2
                 cur2 (k + 1))))) ∧
    (∀ (ind cur : Int) (top : List Token),
        popWhileAux ind cur top [] = (cur, top, [])) ∧
    (∀ (ind cur : Int) (top parent : List Token) (below : List (List Token)),
        ind < cur →
        popWhileAux ind cur top (parent :: below) =
          popWhileAux ind (cur - 2) (attachFrame parent top) below) ∧
    (∀ (ind cur : Int) (top parent : List Token) (below : List (List Token)),
        ¬ ind < cur →
        popWhileAux ind cur top (parent :: below) = (cur, top, parent :: below)) ∧
    (∀ child : List Token, attachFrame [] child = []) ∧
    (∀ (pre : List Token) (lastI : Token) (child : List Token),
        attachFrame (pre ++ [lastI]) child =
          pre ++ [lastI.withItems (some child)]) := by
  refine ⟨?_, ?_, ?_, ?_, ?_, ?_⟩
  · intro ord line rest top below cur k m c hm
    constructor
    · intro hgt
      simp only [parseListAux, hm]
      rw [if_pos hgt]
    · intro hlt
      simp only [parseListAux, hm]
      rw [if_neg (lt_asymm hlt), if_pos hlt]
  · intro ind cur top
    rfl
  · intro ind cur top parent below hlt
    simp only [popWhileAux]
    rw [if_pos hlt]
  · intro ind cur top parent below hnlt
    simp only [popWhileAux]
    rw [if_neg hnlt]
  · intro child
    rfl
  · exact attachFrame_append

/-- Witness for C3: concrete open and pop steps of the list scan. -/
theorem parseList_nesting_steps_witness :
    (parseListAux false ["  - b"] [listItemTok false "- a" "a"] [] 0 1 =
      parseListAux false [] [listItemTok false "  - b" "b"]
        [[listItemTok false "- a" "a"]] 2 2) ∧
    (parseListAux false ["    - d"] [listItemTok false "- x" "x"]
        [[listItemTok false "- y" "y"]] 5 3 =
      (match popWhileAux 4 5 [listItemTok false "- x" "x"]
          [[listItemTok false "- y" "y"]] with
       | (cur2, top2, below2) =>
         parseListAux false [] (top2 ++ [listItemTok false "    - d" "d"]) below2
           cur2 4)) ∧
    (popWhileAux 0 2 [textTok "c"] [] = (2, [textTok "c"], [])) ∧
    (popWhileAux 0 4 [textTok "c"] [[textTok "p"]] =
      popWhileAux 0 2 (attachFrame [textTok "p"] [textTok "c"]) []) ∧
    (popWhileAux 3 2 [textTok "c"] [[textTok "p"]] =
      (2, [textTok "c"], [[textTok "p"]])) ∧
    (attachFrame [] [textTok "c"] = []) ∧
    (attachFrame ([textTok "a"] ++ [textTok "b"]) [textTok "c"] =
      [textTok "a"] ++ [(textTok "b").withItems (some [textTok "c"])]) := by
  refine ⟨?_, ?_, ?_, ?_, ?_, ?_, ?_⟩
  · exact (parseList_nesting_steps.1 false "  - b" [] _ [] 0 1 "-" "b" rfl).1
      (by decide)
  · exact (parseList_nesting_steps.1 false "    - d" [] _ _ 5 3 "-" "d" rfl).2
      (by decide)
  · exact parseList_nesting_steps.2.1 0 2 _
  · exact parseList_nesting_steps.2.2.1 0 4 _ _ _ (by decide)
  · exact parseList_nesting_steps.2.2.2.1 3 2 _ _ _ (by decide)
  · exact parseList_nesting_steps.2.2.2.2.1 _
  · exact parseList_nesting_steps.2.2.2.2.2 _ _ _

/-- Counterexample for C3 as stated: on the item lines
`"- a" / "   - b" / "     - c" / "    - d"` the code's pop loop stops as soon
as the indentation (4) is no longer strictly less than the tracked
indentation (3 after one pop), leaving `d` nested under `a` (one root item),
whereas popping "until the indentation matches or only the root level
remains" would pop to the root and make `d` a second root item. -/
theorem parseList_pop_condition_cex :
    (Option.map List.length
        (parseList ["- a", "   - b", "     - c", "    - d"]).1.items = some 1) ∧
    (Option.map List.length
        (parseListClaim ["- a", "   - b", "     - c", "    - d"]).1.items = some 2) ∧
    (parseList ["- a", "   - b", "     - c", "    - d"]).1.items ≠
      (parseListClaim ["- a", "   - b", "     - c", "    - d"]).1.items := by
  refine ⟨rfl, rfl, ?_⟩
  intro h
  exact absurd (congrArg (Option.map List.length) h) (by decide)

end Markyfy

namespace Markyfy

/-! ### Link sanitization, URL sanitizer, error boundary -/

/-- C7: rendering `"[x](javascript:alert(1))"` with sanitize enabled yields a
link with `href=""`; with sanitize disabled, the raw `javascript:` URL
captured by the link parse (`javascript:alert(1` — the link scan stops at
the first `)`) is emitted in the href attribute unchanged.  The theorem is
stated for every highlighter rule engine `hf`, which this input never
invokes. -/
theorem parse_link_sanitization (hf : String → String → String) :
    parse hf defaultOptions "[x](javascript:alert(1))" =
      "<p><a href=\"\">x</a>)</p>" ∧
    parse hf ⟨true, false, true, false⟩ "[x](javascript:alert(1))" =
      "<p><a href=\"javascript:alert(1\">x</a>)</p>" :=
  ⟨rfl, rfl⟩

/-- C10: the URL sanitizer returns the empty string exactly when the URL
parses as an absolute URL with protocol `javascript:`; every other input —
parse failures (relative or malformed strings) and parseable URLs of any
other scheme — is returned unchanged. -/
theorem sanitizeUrl_blocks_only_javascript (u : String) :
    (urlProtocol u = some "javascript:" → sanitizeUrl u = "") ∧
    (urlProtocol u ≠ some "javascript:" → sanitizeUrl u = u) := by
  constructor
  · intro h
    simp [sanitizeUrl, h]
  · intro h
    cases hp : urlProtocol u with
    | none => simp [sanitizeUrl, hp]
    | some p =>
      have hne : p ≠ "javascript:" := by
        intro he
        exact h (by rw [hp, he])
      simp [sanitizeUrl, hp, hne]

/-- Witness for C10: a `javascript:` URL is blocked; a `data:` URL and a
malformed string are returned unchanged. -/
theorem sanitizeUrl_blocks_only_javascript_witness :
    sanitizeUrl "javascript:alert(1)" = "" ∧
    sanitizeUrl "data:text/html,x" = "data:text/html,x" ∧
    sanitizeUrl "not a url" = "not a url" := by
  refine ⟨?_, ?_, ?_⟩
  · exact (sanitizeUrl_blocks_only_javascript "javascript:alert(1)").1 (by decide)
  · exact (sanitizeUrl_blocks_only_javascript "data:text/html,x").2 (by decide)
  · exact (sanitizeUrl_blocks_only_javascript "not a url").2 (by decide)

/-- C1: the top-level convert boundary never lets an exception escape — any
error value reaching the boundary is replaced by the HTML-escape of the
full, untrimmed original input (no partially rendered output), and `parse`
is exactly this boundary applied to the tokenize-then-render pipeline. -/
theorem parse_error_boundary (md e : String) (hf : String → String → String)
    (opts : ParserOptions) :
    parseWith (Except.error e) md = escapeHtml md ∧
    parse hf opts md = parseWith (pipeline hf opts md) md :=
  ⟨rfl, rfl⟩

end Markyfy

namespace SyntaxHighlighter

/-- C8: for every code string and every language tag not present in the
highlighter's language registry, `highlight` returns the code completely
unchanged — no span wrapping and no HTML escaping on this path. -/
theorem highlight_unknown_lang (rulesApply : String → String → String)
    (code lang : String) (h : registeredLanguages.lookup lang = none) :
    highlight rulesApply code lang = code := by
  simp [highlight, h]

/-- Witness for C8: `"python"` is unregistered, and even an adversarial rule
engine does not touch the code. -/
theorem highlight_unknown_lang_witness :
    registeredLanguages.lookup "python" = none ∧
    highlight (fun _ c => "<span>" ++ c ++ "</span>") "a<b" "python" = "a<b" :=
  ⟨rfl, highlight_unknown_lang (fun _ c => "<span>" ++ c ++ "</span>") "a<b"
    "python" rfl⟩

end SyntaxHighlighter
